import Mathlib

/-!
# OptionPricer: Black-Scholes pricer and heatmap generator (`src/main.cpp`)

The numeric code of `main.cpp` is embedded generically over a field `α` together with a
record `CMath α` of the `<cmath>` routines the program calls (`std::erf`, `std::sqrt`,
`std::log`, `std::exp`) and the narrowing conversion `static_cast<float>`.  The definitions are
ordinary computable functions of these parameters.  The theorems are stated for the
exact-arithmetic reading `realMath`: `double` and `float` are the real numbers, the `<cmath>`
routines are the mathematical functions they approximate, and no operation rounds.

The plotting calls of `generateHeatmap` (matplotlib-cpp) and the GL/stb calls of
`LoadTextureFromFile` are embedded as a recorded list of calls and as explicit results of the
external routines.
-/

namespace OptionPricer

open MeasureTheory ProbabilityTheory

/-! ## The numeric environment -/

/-- The `<cmath>` routines used by `main.cpp` and the `double` to `float` conversion. -/
structure CMath (α : Type) where
  /-- Counterpart of `std::erf`. -/
  erf : α → α
  /-- Counterpart of `std::sqrt`. -/
  sqrt : α → α
  /-- Counterpart of `std::log`. -/
  log : α → α
  /-- Counterpart of `std::exp`. -/
  exp : α → α
  /-- Counterpart of `static_cast<float>` applied to a `double`. -/
  toFloat : α → α

/-- The error function as the C standard library specifies it:
`erf x = 2/√π · ∫₀ˣ exp (-t²) dt`. -/
noncomputable def erf (x : ℝ) : ℝ :=
  2 / Real.sqrt Real.pi * ∫ t in (0 : ℝ)..x, Real.exp (-t ^ 2)

/-- Exact-arithmetic reading of the numeric environment: the mathematical functions on `ℝ`,
and a narrowing conversion that does not round. -/
noncomputable def realMath : CMath ℝ where
  erf := erf
  sqrt := Real.sqrt
  log := Real.log
  exp := Real.exp
  toFloat := fun x => x

/-! ## Pricer (`main.cpp` lines 197-216) -/

/-- Source `cumulativeNormal`: `0.5 * (1.0 + std::erf(x / std::sqrt(2.0)))`. -/
def cumulativeNormal {α : Type} [Field α] (m : CMath α) (x : α) : α :=
  0.5 * (1.0 + m.erf (x / m.sqrt 2.0))

/-- Source local `d1` of `blackScholesPrice`. -/
def bs_d1 {α : Type} [Field α] (m : CMath α) (S K T r sigma : α) : α :=
  (m.log (S / K) + (r + 0.5 * sigma * sigma) * T) / (sigma * m.sqrt T)

/-- Source local `d2` of `blackScholesPrice`. -/
def bs_d2 {α : Type} [Field α] (m : CMath α) (S K T r sigma : α) : α :=
  bs_d1 m S K T r sigma - sigma * m.sqrt T

/-- Source `blackScholesPrice`. -/
def blackScholesPrice {α : Type} [Field α] (m : CMath α) (isCall : Bool)
    (S K T r sigma : α) : α :=
  let d1 := bs_d1 m S K T r sigma
  let d2 := bs_d2 m S K T r sigma
  if isCall then
    S * cumulativeNormal m d1 - K * m.exp (-r * T) * cumulativeNormal m d2
  else
    K * m.exp (-r * T) * cumulativeNormal m (-d2) - S * cumulativeNormal m (-d1)

/-! ## Grid construction of `generateHeatmap` (`main.cpp` lines 222-246) -/

/-- The divisor `(S_steps - 1)`, respectively `(sigma_steps - 1)`, of the step computation,
an `int` expression. -/
def stepDivisor (steps : Int) : Int := steps - 1

/-- Source `S_min + (S_max - S_min) * i / (S_steps - 1)` and its volatility twin
`sigma_min + (sigma_max - sigma_min) * j / (sigma_steps - 1)`, with `lo = x * 0.5`
and `hi = x * 1.5`. -/
def interpolate {α : Type} [Field α] (steps : Int) (x : α) (k : Nat) : α :=
  let lo := x * 0.5
  let hi := x * 1.5
  lo + (hi - lo) * (k : α) / ((stepDivisor steps : Int) : α)

/-- The nested loop of `generateHeatmap` for step counts `S_steps`, `sigma_steps`:
row `i` holds, at position `j`,
`static_cast<float>(blackScholesPrice(isCall, current_S, K, T, r, current_sigma))`. -/
def heatmapGrid {α : Type} [Field α] (m : CMath α) (S_steps sigma_steps : Nat)
    (isCall : Bool) (S K T r sigma : α) : List (List α) :=
  (List.range S_steps).map fun i =>
    let current_S := interpolate (S_steps : Int) S i
    (List.range sigma_steps).map fun j =>
      let current_sigma := interpolate (sigma_steps : Int) sigma j
      m.toFloat (blackScholesPrice m isCall current_S K T r current_sigma)

/-- The vector `heatmap` of `generateHeatmap`, with `S_steps = sigma_steps = 100`. -/
def heatmap {α : Type} [Field α] (m : CMath α) (isCall : Bool) (S K T r sigma : α) :
    List (List α) :=
  heatmapGrid m 100 100 isCall S K T r sigma

/-- The vector `flat_heatmap`: the rows of `heatmap` appended in order. -/
def flat_heatmap {α : Type} [Field α] (m : CMath α) (isCall : Bool) (S K T r sigma : α) :
    List α :=
  (heatmap m isCall S K T r sigma).flatten

/-- Entry `j` of row `i` of a vector of vectors, `none` outside its bounds. -/
def cell {α : Type} (g : List (List α)) (i j : Nat) : Option α :=
  match g[i]? with
  | none => none
  | some row => row[j]?

/-! ## Rendering of `generateHeatmap` (`main.cpp` lines 248-279) -/

/-- A call made to the plotting backend. In `imshow`, `extent` is the four numbers
`xmin, xmax, ymin, ymax` written into the keyword string. -/
inductive PlotCall (α : Type) where
  | figure_size (w h : Nat)
  | imshow (data : List α) (rows columns colors : Nat) (extent : α × α × α × α)
      (origin aspect cmap : String)
  | colorbar (img : Nat)
  | xlabel (s : String)
  | ylabel (s : String)
  | title (s : String)
  | save (filename : String)
  | close

/-- The paths passed to `plt::save` in a list of plotting calls. -/
def savedFiles {α : Type} : List (PlotCall α) → List String
  | [] => []
  | PlotCall.save f :: rest => f :: savedFiles rest
  | _ :: rest => savedFiles rest

/-- The handles passed to `plt::colorbar` in a list of plotting calls. -/
def colorbarHandles {α : Type} : List (PlotCall α) → List Nat
  | [] => []
  | PlotCall.colorbar h :: rest => h :: colorbarHandles rest
  | _ :: rest => colorbarHandles rest

/-- The `imshow` call of `generateHeatmap`. -/
def imshowCall {α : Type} [Field α] (m : CMath α) (isCall : Bool) (S K T r sigma : α) :
    PlotCall α :=
  PlotCall.imshow (flat_heatmap m isCall S K T r sigma) 100 100 1
    (S * 0.5, S * 1.5, sigma * 0.5, sigma * 1.5) "lower" "auto" "viridis"

/-- Source `generateHeatmap`. The argument `img` is the value of the pointer `img` after
`plt::imshow(..., &img)` returns (`0` is `nullptr`). The result is the list of plotting calls
made, in order, and either normal completion or the message of the `std::runtime_error`
thrown. -/
def generateHeatmap {α : Type} [Field α] (m : CMath α) (img : Nat) (isCall : Bool)
    (S K T r sigma : α) (filename : String) : List (PlotCall α) × Except String Unit :=
  let calls := [PlotCall.figure_size 800 600, imshowCall m isCall S K T r sigma]
  if img ≠ 0 then
    let optionType := if isCall then "Call" else "Put"
    (calls ++ [PlotCall.colorbar img,
       PlotCall.xlabel "Stock Price (S)",
       PlotCall.ylabel "Volatility (σ)",
       PlotCall.title ("Option Price Heatmap (" ++ optionType ++ " Option)"),
       PlotCall.save filename,
       PlotCall.close],
     Except.ok ())
  else
    (calls, Except.error "Failed to create image for heatmap.")

/-! ## The "Generate Heatmap" action of `main` (`main.cpp` lines 137-151, 282-298) -/

/-- Source `LoadTextureFromFile`: `stbiData` is whether `stbi_load` returned non-`NULL` data,
`genTexture` is the name written by `glGenTextures`. -/
def LoadTextureFromFile (stbiData : Bool) (genTexture : Nat) : Nat :=
  if stbiData = false then 0 else genTexture

/-- The local variables of `main` that live across frames, and whether the popup "Error"
has been opened. -/
structure UIState (α : Type) where
  S : α
  K : α
  T : α
  r : α
  sigma : α
  isCall : Bool
  optionPrice : α
  heatmapFilename : String
  showHeatmap : Bool
  heatmapTexture : Nat
  errorPopup : Bool

/-- Results of the external routines during one "Generate Heatmap" action. -/
structure ActionEnv where
  /-- Value of `img` after `plt::imshow`. -/
  img : Nat
  /-- Whether `stbi_load` returned data. -/
  stbiData : Bool
  /-- Texture name produced by `glGenTextures`. -/
  genTexture : Nat

/-- The body of `if (ImGui::Button("Generate Heatmap")) { ... }` in `main`. There is no
`try` block around the call of `generateHeatmap`, so an exception thrown there leaves the
handler (and `main`); this is the `Except.error` result. The `glDeleteTextures` call on the
previous texture changes none of the variables of `UIState` and is not recorded. -/
def main_generateHeatmapAction {α : Type} [Field α] (m : CMath α) (env : ActionEnv)
    (st : UIState α) : Except String (UIState α) :=
  match (generateHeatmap m env.img st.isCall st.S st.K st.T st.r st.sigma
      st.heatmapFilename).2 with
  | Except.error e => Except.error e
  | Except.ok () =>
    let texture := LoadTextureFromFile env.stbiData env.genTexture
    Except.ok { st with
      showHeatmap := true
      heatmapTexture := texture
      errorPopup := if texture = 0 then true else st.errorPopup }

/-! ## Specification-side definitions -/

/-- The standard normal cumulative distribution function `Φ`. -/
noncomputable def Phi (x : ℝ) : ℝ := cdf (gaussianReal 0 1) x

/-- The Black-Scholes closed form as the specification words it. -/
noncomputable def closedForm (isCall : Bool) (S K T r sigma : ℝ) : ℝ :=
  let d1 := (Real.log (S / K) + (r + 0.5 * sigma ^ 2) * T) / (sigma * Real.sqrt T)
  let d2 := d1 - sigma * Real.sqrt T
  if isCall then S * Phi d1 - K * Real.exp (-r * T) * Phi d2
  else K * Real.exp (-r * T) * Phi (-d2) - S * Phi (-d1)

/-- The initial values of the variables of `main` (lines 74-85). -/
def initialState {α : Type} [Field α] : UIState α where
  S := 100.0
  K := 100.0
  T := 1.0
  r := 0.05
  sigma := 0.2
  isCall := true
  optionPrice := 0.0
  heatmapFilename := "heatmap.png"
  showHeatmap := false
  heatmapTexture := 0
  errorPopup := false

/-! ## The normal distribution function computed by `cumulativeNormal` -/

theorem erf_neg (x : ℝ) : erf (-x) = -erf x := by
  unfold erf
  have h : ∫ t in (0 : ℝ)..(-x), Real.exp (-t ^ 2) = -∫ t in (0 : ℝ)..x, Real.exp (-t ^ 2) := by
    have key : ∫ t in (0 : ℝ)..x, Real.exp (-(-t) ^ 2) = ∫ t in (-x)..(-0), Real.exp (-t ^ 2) :=
      intervalIntegral.integral_comp_neg (fun t => Real.exp (-t ^ 2))
    simp only [neg_sq, neg_zero] at key
    rw [key, intervalIntegral.integral_symm]
  rw [h]; ring

theorem Phi_eq_integral (x : ℝ) : Phi x = ∫ t in Set.Iic x, gaussianPDFReal 0 1 t := by
  unfold Phi
  rw [cdf_eq_toReal, gaussianReal_apply_eq_integral 0 one_ne_zero,
    ENNReal.toReal_ofReal]
  exact setIntegral_nonneg measurableSet_Iic (fun t _ => gaussianPDFReal_nonneg 0 1 t)

theorem gaussianPDFReal_std (t : ℝ) :
    gaussianPDFReal 0 1 t = (Real.sqrt (2 * Real.pi))⁻¹ * Real.exp (-(t ^ 2) / 2) := by
  simp [gaussianPDFReal]

theorem integral_Iic_zero_gaussian : ∫ t in Set.Iic (0:ℝ), gaussianPDFReal 0 1 t = 1 / 2 := by
  have hint := integrable_gaussianPDFReal 0 1
  have h1 : ∫ t in Set.Iic (0:ℝ), gaussianPDFReal 0 1 t
      = ∫ t in Set.Ioi (0:ℝ), gaussianPDFReal 0 1 t := by
    have key := integral_comp_neg_Iic (0:ℝ) (fun t => gaussianPDFReal 0 1 t)
    simp only [neg_zero] at key
    rw [← key]
    congr 1
    funext t
    simp [gaussianPDFReal]
  have h2 : (∫ t in Set.Iic (0:ℝ), gaussianPDFReal 0 1 t)
      + (∫ t in (Set.Iic (0:ℝ))ᶜ, gaussianPDFReal 0 1 t) = ∫ t, gaussianPDFReal 0 1 t :=
    integral_add_compl measurableSet_Iic hint
  rw [Set.compl_Iic, ← h1, integral_gaussianPDFReal_eq_one 0 one_ne_zero] at h2
  linarith

theorem Phi_eq_half_add (x : ℝ) :
    Phi x = 1 / 2 + ∫ t in (0:ℝ)..x, gaussianPDFReal 0 1 t := by
  have hint := integrable_gaussianPDFReal 0 1
  have key : (∫ t in Set.Iic x, gaussianPDFReal 0 1 t)
      - (∫ t in Set.Iic (0:ℝ), gaussianPDFReal 0 1 t)
      = ∫ t in (0:ℝ)..x, gaussianPDFReal 0 1 t :=
    intervalIntegral.integral_Iic_sub_Iic hint.integrableOn hint.integrableOn
  rw [Phi_eq_integral, ← key, integral_Iic_zero_gaussian]; ring

theorem integral_gaussian_eq_erf (x : ℝ) :
    ∫ t in (0:ℝ)..x, gaussianPDFReal 0 1 t = 1 / 2 * erf (x / Real.sqrt 2) := by
  have h2 : (0:ℝ) < Real.sqrt 2 := Real.sqrt_pos.2 (by norm_num)
  have hpi : (0:ℝ) < Real.sqrt Real.pi := Real.sqrt_pos.2 Real.pi_pos
  have key : ∫ t in (0:ℝ)..x, Real.exp (-(t / Real.sqrt 2) ^ 2)
      = Real.sqrt 2 • ∫ u in (0 / Real.sqrt 2)..(x / Real.sqrt 2), Real.exp (-u ^ 2) :=
    intervalIntegral.integral_comp_div (fun u => Real.exp (-u ^ 2)) h2.ne'
  simp only [zero_div, smul_eq_mul] at key
  have hfun : (fun t : ℝ => gaussianPDFReal 0 1 t)
      = fun t => (Real.sqrt (2 * Real.pi))⁻¹ * Real.exp (-(t / Real.sqrt 2) ^ 2) := by
    funext t
    rw [gaussianPDFReal_std, div_pow, Real.sq_sqrt (by norm_num), neg_div]
  rw [hfun, intervalIntegral.integral_const_mul, key]
  unfold erf
  rw [Real.sqrt_mul (by norm_num) Real.pi]
  field_simp
  ring

theorem cumulativeNormal_eq_Phi (x : ℝ) : cumulativeNormal realMath x = Phi x := by
  show (0.5:ℝ) * (1.0 + erf (x / Real.sqrt 2.0)) = Phi x
  rw [Phi_eq_half_add, integral_gaussian_eq_erf]
  norm_num
  ring

theorem Phi_neg (x : ℝ) : Phi (-x) = 1 - Phi x := by
  rw [← cumulativeNormal_eq_Phi, ← cumulativeNormal_eq_Phi]
  show (0.5:ℝ) * (1.0 + erf (-x / Real.sqrt 2.0)) = 1 - 0.5 * (1.0 + erf (x / Real.sqrt 2.0))
  rw [neg_div, erf_neg]
  norm_num
  ring

theorem Phi_nonneg (x : ℝ) : 0 ≤ Phi x := cdf_nonneg _ x

theorem Phi_le_one (x : ℝ) : Phi x ≤ 1 := cdf_le_one _ x

theorem Phi_mono {x y : ℝ} (h : x ≤ y) : Phi x ≤ Phi y := monotone_cdf _ h

theorem Phi_zero : Phi 0 = 1 / 2 := by
  rw [Phi_eq_half_add]; simp

/-- The price in terms of `Φ`, with the locals `d1`, `d2` kept as in the source. -/
theorem blackScholesPrice_real (isCall : Bool) (S K T r sigma : ℝ) :
    blackScholesPrice realMath isCall S K T r sigma =
      if isCall then
        S * Phi (bs_d1 realMath S K T r sigma)
          - K * Real.exp (-r * T) * Phi (bs_d2 realMath S K T r sigma)
      else
        K * Real.exp (-r * T) * Phi (-bs_d2 realMath S K T r sigma)
          - S * Phi (-bs_d1 realMath S K T r sigma) := by
  simp only [blackScholesPrice, cumulativeNormal_eq_Phi]
  rfl

theorem call_sub_put (S K T r sigma : ℝ) :
    blackScholesPrice realMath true S K T r sigma
      - blackScholesPrice realMath false S K T r sigma = S - K * Real.exp (-r * T) := by
  rw [blackScholesPrice_real, blackScholesPrice_real]
  simp only [if_true, Bool.false_eq_true, if_false, Phi_neg]
  ring

/-! ## Pricer claims -/

/-- C1. Put-call parity: for `S, K, T, sigma > 0` and every `r`, the call price minus the put
price equals `S - K * exp (-r * T)`. -/
theorem put_call_parity (S K T r sigma : ℝ) (_hS : 0 < S) (_hK : 0 < K) (_hT : 0 < T)
    (_hsigma : 0 < sigma) :
    blackScholesPrice realMath true S K T r sigma
      - blackScholesPrice realMath false S K T r sigma = S - K * Real.exp (-r * T) :=
  call_sub_put S K T r sigma

theorem put_call_parity_witness :
    blackScholesPrice realMath true 100 100 1 0.05 0.2
      - blackScholesPrice realMath false 100 100 1 0.05 0.2
      = 100 - 100 * Real.exp (-0.05 * 1) :=
  put_call_parity 100 100 1 0.05 0.2 (by norm_num) (by norm_num) (by norm_num) (by norm_num)

/-- C2. For `S, K, T, sigma > 0` the value of `blackScholesPrice` is the Black-Scholes closed
form of the specification, in which `Φ` is the standard normal cumulative distribution
function; `cumulativeNormal` computes `Φ`, and `Φ x = 0.5 * (1 + erf (x / √2))`. -/
theorem blackScholesPrice_eq_closedForm (isCall : Bool) (S K T r sigma : ℝ) (_hS : 0 < S)
    (_hK : 0 < K) (_hT : 0 < T) (_hsigma : 0 < sigma) :
    blackScholesPrice realMath isCall S K T r sigma = closedForm isCall S K T r sigma
      ∧ (∀ x : ℝ, cumulativeNormal realMath x = Phi x)
      ∧ (∀ x : ℝ, Phi x = 0.5 * (1 + erf (x / Real.sqrt 2))) := by
  refine ⟨?_, cumulativeNormal_eq_Phi, ?_⟩
  · rw [blackScholesPrice_real]
    simp only [closedForm, bs_d1, bs_d2, realMath]
    cases isCall <;> simp only [if_true, Bool.false_eq_true, if_false] <;> ring_nf
  · intro x
    rw [← cumulativeNormal_eq_Phi]
    show (0.5:ℝ) * (1.0 + erf (x / Real.sqrt 2.0)) = _
    norm_num

theorem blackScholesPrice_eq_closedForm_witness :
    blackScholesPrice realMath false 100 100 1 0.05 0.2 = closedForm false 100 100 1 0.05 0.2 :=
  (blackScholesPrice_eq_closedForm false 100 100 1 0.05 0.2
    (by norm_num) (by norm_num) (by norm_num) (by norm_num)).1

/-! ## Grid construction -/

theorem cell_heatmapGrid {α : Type} [Field α] (m : CMath α) (S_steps sigma_steps : Nat)
    (isCall : Bool) (S K T r sigma : α) (i j : Nat) (hi : i < S_steps) (hj : j < sigma_steps) :
    cell (heatmapGrid m S_steps sigma_steps isCall S K T r sigma) i j
      = some (m.toFloat (blackScholesPrice m isCall (interpolate (S_steps : Int) S i) K T r
          (interpolate (sigma_steps : Int) sigma j))) := by
  simp [cell, heatmapGrid, List.getElem?_map, List.getElem?_range, hi, hj]

theorem getElem?_flatten_uniform {α : Type} (n : Nat) (L : List (List α))
    (hL : ∀ row ∈ L, row.length = n) (i j : Nat) (hj : j < n) :
    L.flatten[i * n + j]? = cell L i j := by
  induction L generalizing i with
  | nil => simp [cell]
  | cons row rest ih =>
    have hrow : row.length = n := hL row (List.mem_cons_self _ _)
    have hrest : ∀ x ∈ rest, x.length = n := fun x hx => hL x (List.mem_cons_of_mem _ hx)
    cases i with
    | zero =>
      simp only [List.flatten_cons, Nat.zero_mul, Nat.zero_add, cell, List.getElem?_cons_zero]
      exact List.getElem?_append_left (by omega)
    | succ k =>
      have hidx : (k + 1) * n + j = row.length + (k * n + j) := by rw [hrow]; ring
      rw [List.flatten_cons, hidx, List.getElem?_append_right (by omega),
        Nat.add_sub_cancel_left, ih hrest]
      simp [cell]

theorem interpolate_real (x : ℝ) (k : Nat) :
    interpolate (100 : Int) x k = 0.5 * x + (1.5 * x - 0.5 * x) * k / 99 := by
  simp only [interpolate, stepDivisor]
  norm_num
  ring

/-- C5. The grid of `generateHeatmap` has 100 rows of 100 cells each; cell `(i, j)` holds the
price at spot `S_i = 0.5*S + (1.5*S - 0.5*S)*i/99` and volatility
`sigma_j = 0.5*sigma + (1.5*sigma - 0.5*sigma)*j/99`; the four corner cells hold the prices at
`(0.5 S, 0.5 σ)`, `(0.5 S, 1.5 σ)`, `(1.5 S, 0.5 σ)`, `(1.5 S, 1.5 σ)`. -/
theorem heatmap_grid (isCall : Bool) (S K T r sigma : ℝ) :
    (heatmap realMath isCall S K T r sigma).length = 100
      ∧ (∀ row ∈ heatmap realMath isCall S K T r sigma, row.length = 100)
      ∧ (∀ i j : Fin 100, cell (heatmap realMath isCall S K T r sigma) i j
          = some (blackScholesPrice realMath isCall (0.5 * S + (1.5 * S - 0.5 * S) * i / 99)
              K T r (0.5 * sigma + (1.5 * sigma - 0.5 * sigma) * j / 99)))
      ∧ cell (heatmap realMath isCall S K T r sigma) 0 0
          = some (blackScholesPrice realMath isCall (0.5 * S) K T r (0.5 * sigma))
      ∧ cell (heatmap realMath isCall S K T r sigma) 0 99
          = some (blackScholesPrice realMath isCall (0.5 * S) K T r (1.5 * sigma))
      ∧ cell (heatmap realMath isCall S K T r sigma) 99 0
          = some (blackScholesPrice realMath isCall (1.5 * S) K T r (0.5 * sigma))
      ∧ cell (heatmap realMath isCall S K T r sigma) 99 99
          = some (blackScholesPrice realMath isCall (1.5 * S) K T r (1.5 * sigma)) := by
  have hcell : ∀ i j : Nat, i < 100 → j < 100 →
      cell (heatmap realMath isCall S K T r sigma) i j
        = some (blackScholesPrice realMath isCall (0.5 * S + (1.5 * S - 0.5 * S) * i / 99)
            K T r (0.5 * sigma + (1.5 * sigma - 0.5 * sigma) * j / 99)) := by
    intro i j hi hj
    have h := cell_heatmapGrid realMath 100 100 isCall S K T r sigma i j hi hj
    simp only [Nat.cast_ofNat, interpolate_real] at h
    exact h
  refine ⟨by simp [heatmap, heatmapGrid], ?_, fun i j => hcell i j i.isLt j.isLt, ?_, ?_, ?_, ?_⟩
  · intro row hrow
    simp only [heatmap, heatmapGrid, List.mem_map] at hrow
    obtain ⟨i, _, rfl⟩ := hrow
    simp
  · rw [hcell 0 0 (by norm_num) (by norm_num)]; norm_num
  · rw [hcell 0 99 (by norm_num) (by norm_num)]; norm_num
  · rw [hcell 99 0 (by norm_num) (by norm_num)]; norm_num
  · rw [hcell 99 99 (by norm_num) (by norm_num)]; norm_num

/-! ## Rendering and the action handler -/

/-- C7. `generateHeatmap` raises exactly when the image handle returned through `imshow` is
null; then `colorbar` is not called and no file is saved. With a valid handle it completes,
`colorbar` is called once, with that handle, and exactly one file is saved, at the given
path. -/
theorem generateHeatmap_render {α : Type} [Field α] (m : CMath α) (img : Nat) (isCall : Bool)
    (S K T r sigma : α) (filename : String) :
    ((generateHeatmap m img isCall S K T r sigma filename).2
        = Except.error "Failed to create image for heatmap." ↔ img = 0)
      ∧ ((generateHeatmap m img isCall S K T r sigma filename).2 = Except.ok () ↔ img ≠ 0)
      ∧ colorbarHandles (generateHeatmap m img isCall S K T r sigma filename).1
          = (if img = 0 then [] else [img])
      ∧ savedFiles (generateHeatmap m img isCall S K T r sigma filename).1
          = (if img = 0 then [] else [filename]) := by
  by_cases h : img = 0 <;>
    simp [generateHeatmap, imshowCall, savedFiles, colorbarHandles, h]

/-- C8. At the initial state of `main`, a "Generate Heatmap" action in which `imshow` yields a
null handle does not complete: the error raised by `generateHeatmap` leaves the handler. An
action in which only the decoding of the file fails completes, with texture `0` and the
"Error" popup opened. -/
theorem generateHeatmapAction_render_error_escapes :
    main_generateHeatmapAction realMath { img := 0, stbiData := true, genTexture := 1 }
        initialState
      = Except.error "Failed to create image for heatmap."
    ∧ main_generateHeatmapAction realMath { img := 1, stbiData := false, genTexture := 1 }
        initialState
      = Except.ok { (initialState : UIState ℝ) with
          showHeatmap := true, heatmapTexture := 0, errorPopup := true } := by
  constructor <;>
    simp [main_generateHeatmapAction, generateHeatmap, LoadTextureFromFile, initialState]

theorem flat_heatmap_getElem? {α : Type} [Field α] (m : CMath α) (isCall : Bool)
    (S K T r sigma : α) (i j : Nat) (hi : i < 100) (hj : j < 100) :
    (flat_heatmap m isCall S K T r sigma)[i * 100 + j]?
      = some (m.toFloat (blackScholesPrice m isCall (interpolate (100 : Int) S i) K T r
          (interpolate (100 : Int) sigma j))) := by
  have hrows : ∀ row ∈ heatmap m isCall S K T r sigma, row.length = 100 := by
    intro row hrow
    simp only [heatmap, heatmapGrid, List.mem_map] at hrow
    obtain ⟨k, _, rfl⟩ := hrow
    simp
  rw [flat_heatmap, getElem?_flatten_uniform 100 _ hrows i j hj]
  exact cell_heatmapGrid m 100 100 isCall S K T r sigma i j hi hj

theorem call_le_spot (S K T r sigma : ℝ) (hS : 0 ≤ S) (hK : 0 ≤ K) :
    blackScholesPrice realMath true S K T r sigma ≤ S := by
  rw [blackScholesPrice_real]
  simp only [if_true]
  have h1 := Phi_le_one (bs_d1 realMath S K T r sigma)
  have h2 := Phi_nonneg (bs_d2 realMath S K T r sigma)
  have h3 : 0 ≤ K * Real.exp (-r * T) := mul_nonneg hK (Real.exp_pos _).le
  nlinarith [mul_nonneg h3 h2, mul_le_mul_of_nonneg_left h1 hS]

theorem call_ge_half_forward (S K T r sigma : ℝ) (hK : 0 ≤ K) (hsigma : 0 ≤ sigma)
    (hd1 : 0 ≤ bs_d1 realMath S K T r sigma) (hSK : K * Real.exp (-r * T) ≤ S) :
    (S - K * Real.exp (-r * T)) / 2 ≤ blackScholesPrice realMath true S K T r sigma := by
  rw [blackScholesPrice_real]
  simp only [if_true]
  have hd : bs_d2 realMath S K T r sigma ≤ bs_d1 realMath S K T r sigma := by
    have : 0 ≤ sigma * realMath.sqrt T := mul_nonneg hsigma (Real.sqrt_nonneg T)
    unfold bs_d2
    linarith
  have h1 : Phi (bs_d2 realMath S K T r sigma) ≤ Phi (bs_d1 realMath S K T r sigma) :=
    Phi_mono hd
  have h2 : 1 / 2 ≤ Phi (bs_d1 realMath S K T r sigma) := by
    rw [← Phi_zero]; exact Phi_mono hd1
  have h3 : 0 ≤ K * Real.exp (-r * T) := mul_nonneg hK (Real.exp_pos _).le
  nlinarith [mul_le_mul_of_nonneg_left h1 h3,
    mul_le_mul_of_nonneg_left h2 (sub_nonneg.2 hSK)]

/-- C10. For the call with `S = 100`, `K = 10`, `T = 1`, `r = 0.05`, `sigma = 0.2`, the
`imshow` call receives 100 rows of 100 columns with extent `[50, 150]` by `[0.1, 0.3]`, and
the element at row `0`, column `99` (flat index `0 * 100 + 99`) is the price at spot `S_0 = 50`
and volatility `sigma_99 = 0.3`, which differs from the price at spot `S_99 = 150` and
volatility `sigma_0 = 0.1`: rows vary the spot and columns the volatility. -/
theorem imshow_data_transposed :
    imshowCall realMath true 100 10 1 0.05 0.2
        = PlotCall.imshow (flat_heatmap realMath true 100 10 1 0.05 0.2) 100 100 1
            (50, 150, 0.1, 0.3) "lower" "auto" "viridis"
      ∧ (flat_heatmap realMath true (100 : ℝ) 10 1 0.05 0.2)[0 * 100 + 99]?
          = some (blackScholesPrice realMath true 50 10 1 0.05 0.3)
      ∧ blackScholesPrice realMath true 50 10 1 0.05 0.3
          ≠ blackScholesPrice realMath true 150 10 1 0.05 0.1 := by
  refine ⟨?_, ?_, ?_⟩
  · simp only [imshowCall]
    norm_num
  · rw [flat_heatmap_getElem? realMath true 100 10 1 0.05 0.2 0 99 (by norm_num) (by norm_num)]
    simp only [interpolate_real]
    norm_num [realMath]
  · have hlow : blackScholesPrice realMath true 50 10 1 0.05 0.3 ≤ 50 :=
      call_le_spot 50 10 1 0.05 0.3 (by norm_num) (by norm_num)
    have hexp : Real.exp (-0.05 * 1) ≤ 1 := Real.exp_le_one_iff.2 (by norm_num)
    have hd1 : 0 ≤ bs_d1 realMath 150 10 1 0.05 0.1 := by
      simp only [bs_d1, realMath]
      have hlog : 0 ≤ Real.log (150 / 10) := Real.log_nonneg (by norm_num)
      rw [Real.sqrt_one]
      apply div_nonneg _ (by norm_num)
      linarith
    have hhigh := call_ge_half_forward 150 10 1 0.05 0.1 (by norm_num) (by norm_num) hd1
      (by linarith)
    intro heq
    rw [heq] at hlow
    linarith

/-! ## Monotonicity in the spot -/

theorem continuous_gaussianPDFReal_std : Continuous (fun t : ℝ => gaussianPDFReal 0 1 t) := by
  have h : (fun t : ℝ => gaussianPDFReal 0 1 t)
      = fun t => (Real.sqrt (2 * Real.pi))⁻¹ * Real.exp (-(t ^ 2) / 2) :=
    funext gaussianPDFReal_std
  rw [h]
  fun_prop

theorem hasDerivAt_Phi (x : ℝ) : HasDerivAt Phi (gaussianPDFReal 0 1 x) x := by
  have h := (continuous_gaussianPDFReal_std.integral_hasStrictDerivAt 0 x).hasDerivAt
  have hfun : Phi = fun u => 1 / 2 + ∫ t in (0:ℝ)..u, gaussianPDFReal 0 1 t :=
    funext Phi_eq_half_add
  rw [hfun]
  exact h.const_add (1 / 2)

theorem hasDerivAt_bs_d1 (S K T r sigma : ℝ) (hS : 0 < S) (hK : 0 < K) :
    HasDerivAt (fun s => bs_d1 realMath s K T r sigma)
      (1 / S / (sigma * Real.sqrt T)) S := by
  have hlog : HasDerivAt (fun s : ℝ => Real.log (s / K)) (1 / S) S := by
    have h := ((hasDerivAt_id S).div_const K).log (div_pos hS hK).ne'
    convert h using 1
    field_simp
  exact (hlog.add_const ((r + 0.5 * sigma * sigma) * T)).div_const (sigma * Real.sqrt T)

/-- The identity `S φ(d1) = K exp(-rT) φ(d2)` behind the Black-Scholes delta. -/
theorem spot_pdf_eq (S K T r sigma : ℝ) (hS : 0 < S) (hK : 0 < K) (hT : 0 < T)
    (hsigma : 0 < sigma) :
    S * gaussianPDFReal 0 1 (bs_d1 realMath S K T r sigma)
      = K * Real.exp (-r * T) * gaussianPDFReal 0 1 (bs_d2 realMath S K T r sigma) := by
  have hsqrt : 0 < Real.sqrt T := Real.sqrt_pos.2 hT
  have hb : 0 < sigma * Real.sqrt T := mul_pos hsigma hsqrt
  have hbd : sigma * Real.sqrt T * bs_d1 realMath S K T r sigma
      = Real.log (S / K) + (r + 0.5 * sigma * sigma) * T := by
    show sigma * Real.sqrt T
      * ((Real.log (S / K) + (r + 0.5 * sigma * sigma) * T) / (sigma * Real.sqrt T)) = _
    field_simp
  have hbb : (sigma * Real.sqrt T) * (sigma * Real.sqrt T) = sigma * sigma * T := by
    rw [mul_mul_mul_comm, Real.mul_self_sqrt hT.le]
  have hd2 : bs_d2 realMath S K T r sigma
      = bs_d1 realMath S K T r sigma - sigma * Real.sqrt T := rfl
  have hSK : S = K * Real.exp (Real.log (S / K)) := by
    rw [Real.exp_log (div_pos hS hK)]; field_simp
  rw [gaussianPDFReal_std, gaussianPDFReal_std, hd2]
  generalize bs_d1 realMath S K T r sigma = d at hbd ⊢
  have hexp : Real.exp (Real.log (S / K)) * Real.exp (-(d ^ 2) / 2)
      = Real.exp (-r * T) * Real.exp (-((d - sigma * Real.sqrt T) ^ 2) / 2) := by
    rw [← Real.exp_add, ← Real.exp_add]
    congr 1
    linear_combination (-1 : ℝ) * hbd + (1 / 2 : ℝ) * hbb
  calc S * ((Real.sqrt (2 * Real.pi))⁻¹ * Real.exp (-(d ^ 2) / 2))
      = K * (Real.sqrt (2 * Real.pi))⁻¹
          * (Real.exp (Real.log (S / K)) * Real.exp (-(d ^ 2) / 2)) := by
        nth_rewrite 1 [hSK]; ring
    _ = K * Real.exp (-r * T) * ((Real.sqrt (2 * Real.pi))⁻¹
          * Real.exp (-((d - sigma * Real.sqrt T) ^ 2) / 2)) := by
        rw [hexp]; ring

/-- The derivative of the call price in the spot is `Φ(d1)`. -/
theorem hasDerivAt_call (S K T r sigma : ℝ) (hS : 0 < S) (hK : 0 < K) (hT : 0 < T)
    (hsigma : 0 < sigma) :
    HasDerivAt (fun s => blackScholesPrice realMath true s K T r sigma)
      (Phi (bs_d1 realMath S K T r sigma)) S := by
  have hd1 := hasDerivAt_bs_d1 S K T r sigma hS hK
  have hd2 : HasDerivAt (fun s => bs_d2 realMath s K T r sigma)
      (1 / S / (sigma * Real.sqrt T)) S := hd1.sub_const (sigma * Real.sqrt T)
  have hP1 := (hasDerivAt_Phi (bs_d1 realMath S K T r sigma)).comp S hd1
  have hP2 := (hasDerivAt_Phi (bs_d2 realMath S K T r sigma)).comp S hd2
  have h := ((hasDerivAt_id S).mul hP1).sub (hP2.const_mul (K * Real.exp (-r * T)))
  have hfun : (fun s => blackScholesPrice realMath true s K T r sigma)
      = (fun s => id s * (Phi ∘ fun s => bs_d1 realMath s K T r sigma) s
          - K * Real.exp (-r * T) * (Phi ∘ fun s => bs_d2 realMath s K T r sigma) s) := by
    funext s
    rw [blackScholesPrice_real]
    simp
  rw [hfun]
  convert h using 1
  have key := spot_pdf_eq S K T r sigma hS hK hT hsigma
  have hb : 0 < sigma * Real.sqrt T := mul_pos hsigma (Real.sqrt_pos.2 hT)
  simp only [id, Function.comp_apply]
  linear_combination (-(1 / S / (sigma * Real.sqrt T))) * key

theorem call_monotoneOn (K T r sigma : ℝ) (hK : 0 < K) (hT : 0 < T) (hsigma : 0 < sigma) :
    MonotoneOn (fun s => blackScholesPrice realMath true s K T r sigma) (Set.Ioi 0) := by
  apply monotoneOn_of_deriv_nonneg (convex_Ioi 0)
  · intro s hs
    exact (hasDerivAt_call s K T r sigma hs hK hT hsigma).continuousAt.continuousWithinAt
  · rw [interior_Ioi]
    intro s hs
    exact (hasDerivAt_call s K T r sigma hs hK hT hsigma).differentiableAt.differentiableWithinAt
  · rw [interior_Ioi]
    intro s hs
    rw [(hasDerivAt_call s K T r sigma hs hK hT hsigma).deriv]
    exact Phi_nonneg _

theorem spot_sub_call_monotoneOn (K T r sigma : ℝ) (hK : 0 < K) (hT : 0 < T)
    (hsigma : 0 < sigma) :
    MonotoneOn (fun s => s - blackScholesPrice realMath true s K T r sigma) (Set.Ioi 0) := by
  have hderiv : ∀ s : ℝ, 0 < s →
      HasDerivAt (fun s => s - blackScholesPrice realMath true s K T r sigma)
        (1 - Phi (bs_d1 realMath s K T r sigma)) s :=
    fun s hs => (hasDerivAt_id s).sub (hasDerivAt_call s K T r sigma hs hK hT hsigma)
  apply monotoneOn_of_deriv_nonneg (convex_Ioi 0)
  · intro s hs
    exact (hderiv s hs).continuousAt.continuousWithinAt
  · rw [interior_Ioi]
    intro s hs
    exact (hderiv s hs).differentiableAt.differentiableWithinAt
  · rw [interior_Ioi]
    intro s hs
    rw [(hderiv s hs).deriv]
    linarith [Phi_le_one (bs_d1 realMath s K T r sigma)]

/-- C3. Monotonicity in the spot: for `K, T, sigma > 0`, every `r` and `0 < S1 ≤ S2`, the call
price at `S1` is at most the call price at `S2`, and the put price at `S1` is at least the put
price at `S2`. -/
theorem price_monotone_in_spot (K T r sigma S1 S2 : ℝ) (hK : 0 < K) (hT : 0 < T)
    (hsigma : 0 < sigma) (hS1 : 0 < S1) (h12 : S1 ≤ S2) :
    blackScholesPrice realMath true S1 K T r sigma
        ≤ blackScholesPrice realMath true S2 K T r sigma
      ∧ blackScholesPrice realMath false S1 K T r sigma
        ≥ blackScholesPrice realMath false S2 K T r sigma := by
  have hS2 : 0 < S2 := lt_of_lt_of_le hS1 h12
  have hcall := call_monotoneOn K T r sigma hK hT hsigma hS1 hS2 h12
  have hrest := spot_sub_call_monotoneOn K T r sigma hK hT hsigma hS1 hS2 h12
  have hp1 := call_sub_put S1 K T r sigma
  have hp2 := call_sub_put S2 K T r sigma
  simp only at hcall hrest
  constructor
  · exact hcall
  · linarith

theorem price_monotone_in_spot_witness :
    blackScholesPrice realMath true 90 100 1 0.05 0.2
        ≤ blackScholesPrice realMath true 110 100 1 0.05 0.2
      ∧ blackScholesPrice realMath false 90 100 1 0.05 0.2
        ≥ blackScholesPrice realMath false 110 100 1 0.05 0.2 :=
  price_monotone_in_spot 100 1 0.05 0.2 90 110 (by norm_num) (by norm_num) (by norm_num)
    (by norm_num) (by norm_num)

/-! ## The limit of vanishing volatility -/

theorem tendsto_vol_sqrt (T : ℝ) (hT : 0 < T) :
    Filter.Tendsto (fun sigma : ℝ => sigma * Real.sqrt T) (nhdsWithin 0 (Set.Ioi 0))
      (nhdsWithin 0 (Set.Ioi 0)) := by
  apply tendsto_nhdsWithin_of_tendsto_nhds_of_eventually_within
  · have h : Filter.Tendsto (fun sigma : ℝ => sigma * Real.sqrt T) (nhds 0)
        (nhds (0 * Real.sqrt T)) := (continuous_id.mul continuous_const).tendsto 0
    rw [zero_mul] at h
    exact h.mono_left nhdsWithin_le_nhds
  · filter_upwards [self_mem_nhdsWithin] with sigma hsigma
    exact mul_pos hsigma (Real.sqrt_pos.2 hT)

theorem bs_d1_split (S K T r sigma : ℝ) (hT : 0 < T) (hsigma : 0 < sigma) :
    bs_d1 realMath S K T r sigma
      = (Real.log (S / K) + r * T) * (sigma * Real.sqrt T)⁻¹ + sigma * Real.sqrt T / 2 := by
  have hsqrt : 0 < Real.sqrt T := Real.sqrt_pos.2 hT
  have hsq := Real.mul_self_sqrt hT.le
  show (Real.log (S / K) + (r + 0.5 * sigma * sigma) * T) / (sigma * Real.sqrt T) = _
  generalize Real.log (S / K) = L
  field_simp
  norm_num
  linear_combination (-(sigma ^ 3 * Real.sqrt T)) * hsq

theorem tendsto_Phi_moneyness (m c T : ℝ) (hT : 0 < T) :
    Filter.Tendsto
      (fun sigma : ℝ => Phi (m * (sigma * Real.sqrt T)⁻¹ + c * (sigma * Real.sqrt T)))
      (nhdsWithin 0 (Set.Ioi 0))
      (nhds (if 0 < m then 1 else if m = 0 then 1 / 2 else 0)) := by
  have hb := tendsto_vol_sqrt T hT
  have hinv : Filter.Tendsto (fun sigma : ℝ => (sigma * Real.sqrt T)⁻¹)
      (nhdsWithin 0 (Set.Ioi 0)) Filter.atTop := tendsto_inv_zero_atTop.comp hb
  have hsmall : Filter.Tendsto (fun sigma : ℝ => c * (sigma * Real.sqrt T))
      (nhdsWithin 0 (Set.Ioi 0)) (nhds 0) := by
    have h := (hb.mono_right nhdsWithin_le_nhds).const_mul c
    rwa [mul_zero] at h
  rcases lt_trichotomy 0 m with hm | hm | hm
  · rw [if_pos hm]
    have hd := (hinv.const_mul_atTop hm).atTop_add hsmall
    exact (tendsto_cdf_atTop (gaussianReal 0 1)).comp hd
  · subst hm
    rw [if_neg (lt_irrefl 0), if_pos rfl, ← Phi_zero]
    have hd : Filter.Tendsto
        (fun sigma : ℝ => 0 * (sigma * Real.sqrt T)⁻¹ + c * (sigma * Real.sqrt T))
        (nhdsWithin 0 (Set.Ioi 0)) (nhds 0) := by
      simpa using hsmall
    exact (hasDerivAt_Phi 0).continuousAt.tendsto.comp hd
  · rw [if_neg (not_lt.2 hm.le), if_neg hm.ne]
    have hd := (hinv.const_mul_atTop_of_neg hm).atBot_add hsmall
    exact (tendsto_cdf_atBot (gaussianReal 0 1)).comp hd

/-- C4. For fixed `S, K, T > 0` and `r`, the call price tends to
`max (S - K * exp (-r * T)) 0` as `sigma` tends to `0` from above. -/
theorem call_tendsto_intrinsic (S K T r : ℝ) (hS : 0 < S) (hK : 0 < K) (hT : 0 < T) :
    Filter.Tendsto (fun sigma : ℝ => blackScholesPrice realMath true S K T r sigma)
      (nhdsWithin 0 (Set.Ioi 0)) (nhds (max (S - K * Real.exp (-r * T)) 0)) := by
  have h1 := tendsto_Phi_moneyness (Real.log (S / K) + r * T) (1 / 2) T hT
  have h2 := tendsto_Phi_moneyness (Real.log (S / K) + r * T) (-(1 / 2)) T hT
  have hlim := (h1.const_mul S).sub (h2.const_mul (K * Real.exp (-r * T)))
  have hSK : S = K * Real.exp (Real.log (S / K)) := by
    rw [Real.exp_log (div_pos hS hK)]; field_simp
  have hval : S * (if 0 < Real.log (S / K) + r * T then (1 : ℝ)
        else if Real.log (S / K) + r * T = 0 then 1 / 2 else 0)
      - K * Real.exp (-r * T) * (if 0 < Real.log (S / K) + r * T then (1 : ℝ)
        else if Real.log (S / K) + r * T = 0 then 1 / 2 else 0)
      = max (S - K * Real.exp (-r * T)) 0 := by
    rcases lt_trichotomy 0 (Real.log (S / K) + r * T) with hm | hm | hm
    · have hlt : Real.exp (-r * T) < Real.exp (Real.log (S / K)) :=
        Real.exp_lt_exp.2 (by linarith)
      have hpos : 0 ≤ S - K * Real.exp (-r * T) := by
        nlinarith [mul_lt_mul_of_pos_left hlt hK]
      rw [if_pos hm, max_eq_left hpos]; ring
    · have heq : Real.exp (-r * T) = Real.exp (Real.log (S / K)) := by
        congr 1; linarith
      have hzero : S - K * Real.exp (-r * T) = 0 := by
        rw [heq, ← hSK]; ring
      rw [if_neg (by rw [← hm]; exact lt_irrefl 0), if_pos hm.symm, hzero]
      have hS0 : K * Real.exp (-r * T) = S := by linarith
      rw [hS0, max_self]; ring
    · have hlt : Real.exp (Real.log (S / K)) < Real.exp (-r * T) :=
        Real.exp_lt_exp.2 (by linarith)
      have hneg : S - K * Real.exp (-r * T) ≤ 0 := by
        nlinarith [mul_lt_mul_of_pos_left hlt hK]
      rw [if_neg (not_lt.2 hm.le), if_neg hm.ne, max_eq_right hneg]; ring
  rw [hval] at hlim
  refine hlim.congr' ?_
  filter_upwards [self_mem_nhdsWithin] with sigma hsigma
  rw [blackScholesPrice_real]
  simp only [if_true]
  have hd2 : bs_d2 realMath S K T r sigma
      = bs_d1 realMath S K T r sigma - sigma * Real.sqrt T := rfl
  rw [hd2, bs_d1_split S K T r sigma hT hsigma]
  congr 3 <;> ring

theorem call_tendsto_intrinsic_witness :
    Filter.Tendsto (fun sigma : ℝ => blackScholesPrice realMath true 100 100 1 0.05 sigma)
      (nhdsWithin 0 (Set.Ioi 0)) (nhds (max (100 - 100 * Real.exp (-0.05 * 1)) 0)) :=
  call_tendsto_intrinsic 100 100 1 0.05 (by norm_num) (by norm_num) (by norm_num)

/-! ## Reference values -/

theorem exp_neg_half_sq_bounds (t : ℝ) (_ht0 : 0 ≤ t) (ht1 : t ≤ 1) :
    1 - t ^ 2 / 2 + t ^ 4 / 8 - t ^ 6 / 48 - 5 / 1536 * t ^ 8 ≤ Real.exp (-(t ^ 2) / 2)
      ∧ Real.exp (-(t ^ 2) / 2)
        ≤ 1 - t ^ 2 / 2 + t ^ 4 / 8 - t ^ 6 / 48 + 5 / 1536 * t ^ 8 := by
  have habs : |(-(t ^ 2) / 2)| = t ^ 2 / 2 := by
    rw [abs_div, abs_neg, abs_pow, sq_abs]; norm_num
  have hle : |(-(t ^ 2) / 2)| ≤ 1 := by
    rw [habs]; nlinarith
  have h := @Real.exp_bound (-(t ^ 2) / 2) hle 4 (by norm_num)
  simp only [Finset.sum_range_succ, Finset.sum_range_zero, Nat.factorial] at h
  rw [habs] at h
  norm_num at h
  have h2 := abs_le.1 h
  constructor
  · nlinarith [h2.1]
  · nlinarith [h2.2]

theorem integral_poly_add (x : ℝ) :
    ∫ t in (0:ℝ)..x, (1 - t ^ 2 / 2 + t ^ 4 / 8 - t ^ 6 / 48 + 5 / 1536 * t ^ 8)
      = x - x ^ 3 / 6 + x ^ 5 / 40 - x ^ 7 / 336 + 5 * x ^ 9 / 13824 := by
  have h : ∀ t ∈ Set.uIcc (0:ℝ) x,
      HasDerivAt (fun t : ℝ => t - t ^ 3 / 6 + t ^ 5 / 40 - t ^ 7 / 336 + 5 * t ^ 9 / 13824)
        (1 - t ^ 2 / 2 + t ^ 4 / 8 - t ^ 6 / 48 + 5 / 1536 * t ^ 8) t := by
    intro t _
    have hd := ((((hasDerivAt_id t).sub ((hasDerivAt_pow 3 t).div_const 6)).add
      ((hasDerivAt_pow 5 t).div_const 40)).sub ((hasDerivAt_pow 7 t).div_const 336)).add
      (((hasDerivAt_pow 9 t).const_mul 5).div_const 13824)
    convert hd using 1
    norm_num
    ring
  rw [intervalIntegral.integral_eq_sub_of_hasDerivAt h
    (Continuous.intervalIntegrable (by fun_prop) _ _)]
  norm_num

theorem integral_poly_sub (x : ℝ) :
    ∫ t in (0:ℝ)..x, (1 - t ^ 2 / 2 + t ^ 4 / 8 - t ^ 6 / 48 - 5 / 1536 * t ^ 8)
      = x - x ^ 3 / 6 + x ^ 5 / 40 - x ^ 7 / 336 - 5 * x ^ 9 / 13824 := by
  have h : ∀ t ∈ Set.uIcc (0:ℝ) x,
      HasDerivAt (fun t : ℝ => t - t ^ 3 / 6 + t ^ 5 / 40 - t ^ 7 / 336 - 5 * t ^ 9 / 13824)
        (1 - t ^ 2 / 2 + t ^ 4 / 8 - t ^ 6 / 48 - 5 / 1536 * t ^ 8) t := by
    intro t _
    have hd := ((((hasDerivAt_id t).sub ((hasDerivAt_pow 3 t).div_const 6)).add
      ((hasDerivAt_pow 5 t).div_const 40)).sub ((hasDerivAt_pow 7 t).div_const 336)).sub
      (((hasDerivAt_pow 9 t).const_mul 5).div_const 13824)
    convert hd using 1
    norm_num
    ring
  rw [intervalIntegral.integral_eq_sub_of_hasDerivAt h
    (Continuous.intervalIntegrable (by fun_prop) _ _)]
  norm_num

theorem integral_exp_bounds (x : ℝ) (hx0 : 0 ≤ x) (hx1 : x ≤ 1) :
    x - x ^ 3 / 6 + x ^ 5 / 40 - x ^ 7 / 336 - 5 * x ^ 9 / 13824
        ≤ ∫ t in (0:ℝ)..x, Real.exp (-(t ^ 2) / 2)
      ∧ ∫ t in (0:ℝ)..x, Real.exp (-(t ^ 2) / 2)
        ≤ x - x ^ 3 / 6 + x ^ 5 / 40 - x ^ 7 / 336 + 5 * x ^ 9 / 13824 := by
  have hexp : IntervalIntegrable (fun t : ℝ => Real.exp (-(t ^ 2) / 2)) volume 0 x :=
    Continuous.intervalIntegrable (by fun_prop) _ _
  constructor
  · rw [← integral_poly_sub]
    apply intervalIntegral.integral_mono_on hx0
      (Continuous.intervalIntegrable (by fun_prop) _ _) hexp
    intro t ht
    exact (exp_neg_half_sq_bounds t ht.1 (le_trans ht.2 hx1)).1
  · rw [← integral_poly_add]
    apply intervalIntegral.integral_mono_on hx0 hexp
      (Continuous.intervalIntegrable (by fun_prop) _ _)
    intro t ht
    exact (exp_neg_half_sq_bounds t ht.1 (le_trans ht.2 hx1)).2

theorem Phi_eq_half_add_mul (x : ℝ) :
    Phi x = 1 / 2 + (Real.sqrt (2 * Real.pi))⁻¹ * ∫ t in (0:ℝ)..x, Real.exp (-(t ^ 2) / 2) := by
  rw [Phi_eq_half_add, ← intervalIntegral.integral_const_mul]
  congr 2
  funext t
  exact gaussianPDFReal_std t

theorem inv_sqrt_two_pi_bounds :
    (0.39894228 : ℝ) ≤ (Real.sqrt (2 * Real.pi))⁻¹
      ∧ (Real.sqrt (2 * Real.pi))⁻¹ ≤ 0.39894229 := by
  have hlo := Real.pi_gt_d20
  have hhi := Real.pi_lt_d20
  have hpos : 0 < Real.sqrt (2 * Real.pi) := Real.sqrt_pos.2 (by positivity)
  constructor
  · rw [le_inv_comm₀ (by norm_num) hpos, Real.sqrt_le_left (by norm_num)]
    norm_num
    linarith
  · rw [inv_le_comm₀ hpos (by norm_num), Real.le_sqrt (by norm_num) (by positivity)]
    norm_num
    linarith

theorem Phi_bounds (x : ℝ) (hx0 : 0 ≤ x) (hx1 : x ≤ 1)
    (hlow : 0 ≤ x - x ^ 3 / 6 + x ^ 5 / 40 - x ^ 7 / 336 - 5 * x ^ 9 / 13824) :
    1 / 2 + 0.39894228 * (x - x ^ 3 / 6 + x ^ 5 / 40 - x ^ 7 / 336 - 5 * x ^ 9 / 13824)
        ≤ Phi x
      ∧ Phi x
        ≤ 1 / 2 + 0.39894229 * (x - x ^ 3 / 6 + x ^ 5 / 40 - x ^ 7 / 336 + 5 * x ^ 9 / 13824) := by
  have hI := integral_exp_bounds x hx0 hx1
  have hc := inv_sqrt_two_pi_bounds
  have hI0 : 0 ≤ ∫ t in (0:ℝ)..x, Real.exp (-(t ^ 2) / 2) := le_trans hlow hI.1
  rw [Phi_eq_half_add_mul]
  constructor
  · have h := mul_le_mul hc.1 hI.1 hlow (le_trans (by norm_num) hc.1)
    linarith
  · have h := mul_le_mul hc.2 hI.2 hI0 (by norm_num)
    linarith

theorem exp_neg_rate_bounds :
    (0.95122942 : ℝ) ≤ Real.exp (-0.05 * 1) ∧ Real.exp (-0.05 * 1) ≤ 0.95122944 := by
  have hle : |(-0.05 * 1 : ℝ)| ≤ 1 := by
    rw [abs_le]; constructor <;> norm_num
  have h := @Real.exp_bound (-0.05 * 1) hle 5 (by norm_num)
  simp only [Finset.sum_range_succ, Finset.sum_range_zero, Nat.factorial] at h
  have habs : |(-0.05 * 1 : ℝ)| = 0.05 := by
    rw [abs_of_neg (by norm_num)]; norm_num
  rw [habs] at h
  norm_num at h
  have h2 := abs_le.1 h
  constructor
  · linarith [h2.1]
  · linarith [h2.2]

/-- C6. At `S = 100`, `K = 100`, `T = 1`, `r = 0.05`, `sigma = 0.2` the call price is within
`5e-5` of `10.4506` and the put price is within `5e-5` of `5.5735`. -/
theorem reference_values :
    |blackScholesPrice realMath true 100 100 1 0.05 0.2 - 10.4506| ≤ 0.00005
      ∧ |blackScholesPrice realMath false 100 100 1 0.05 0.2 - 5.5735| ≤ 0.00005 := by
  have hd1 : bs_d1 realMath 100 100 1 0.05 0.2 = 0.35 := by
    simp only [bs_d1, realMath]
    rw [div_self (by norm_num), Real.log_one, Real.sqrt_one]
    norm_num
  have hd2 : bs_d2 realMath 100 100 1 0.05 0.2 = 0.15 := by
    show bs_d1 realMath 100 100 1 0.05 0.2 - 0.2 * Real.sqrt 1 = 0.15
    rw [hd1, Real.sqrt_one]
    norm_num
  have hP1 := Phi_bounds 0.35 (by norm_num) (by norm_num) (by norm_num)
  have hP2 := Phi_bounds 0.15 (by norm_num) (by norm_num) (by norm_num)
  have hE := exp_neg_rate_bounds
  have ha1 : (0.63683063 : ℝ) ≤ Phi 0.35 := le_trans (by norm_num) hP1.1
  have hb1 : Phi 0.35 ≤ (0.63683066 : ℝ) := le_trans hP1.2 (by norm_num)
  have ha2 : (0.55961769 : ℝ) ≤ Phi 0.15 := le_trans (by norm_num) hP2.1
  have hb2 : Phi 0.15 ≤ (0.55961770 : ℝ) := le_trans hP2.2 (by norm_num)
  have hE0 : (0 : ℝ) ≤ Real.exp (-0.05 * 1) := (Real.exp_pos _).le
  have hcall1 : Real.exp (-0.05 * 1) * Phi 0.15 ≤ 0.95122944 * 0.55961770 :=
    mul_le_mul hE.2 hb2 (le_trans (by norm_num) ha2) (by norm_num)
  have hcall2 : 0.95122942 * 0.55961769 ≤ Real.exp (-0.05 * 1) * Phi 0.15 :=
    mul_le_mul hE.1 ha2 (by norm_num) hE0
  have hput1 : Real.exp (-0.05 * 1) * (1 - Phi 0.15) ≤ 0.95122944 * (1 - 0.55961769) :=
    mul_le_mul hE.2 (by linarith) (by linarith) (by norm_num)
  have hput2 : 0.95122942 * (1 - 0.55961770) ≤ Real.exp (-0.05 * 1) * (1 - Phi 0.15) :=
    mul_le_mul hE.1 (by linarith) (by norm_num) hE0
  rw [blackScholesPrice_real, blackScholesPrice_real]
  simp only [if_true, Bool.false_eq_true, if_false, hd1, hd2, Phi_neg]
  constructor
  · rw [abs_le]
    constructor <;> nlinarith
  · rw [abs_le]
    constructor <;> nlinarith

end OptionPricer
